import Mathlib

/-!
Verification of the JIRA task exporter (`src/main.py`) against its
natural-language specification.

The script is shallowly embedded: Python/JSON values become the inductive
type `JVal`, Python dicts become association lists, fallible Python code
(code that can raise) returns `Option`, and the paginated fetch loop is a
fuel-indexed recursion over an abstract server.  Definitions follow the
source line by line; the line numbers cited in doc comments refer to
`src/main.py`.
-/

/-- A Python/JSON value as it appears in the script: `None`, booleans,
integers, strings, lists and dicts (dicts as insertion-ordered association
lists with unique keys). -/
inductive JVal where
  | null : JVal
  | bool : Bool → JVal
  | num : Int → JVal
  | str : String → JVal
  | arr : List JVal → JVal
  | obj : List (String × JVal) → JVal

/-- Python truthiness (`bool(x)`): `None`, `False`, `0`, `""`, `[]`, `{}`
are falsy, everything else is truthy. -/
def truthy : JVal → Bool
  | .null => false
  | .bool b => b
  | .num n => n != 0
  | .str s => s != ""
  | .arr xs => !xs.isEmpty
  | .obj kvs => !kvs.isEmpty

/-- `d.get(k, dflt)` on a dict `d`: total, defaults when the key is absent. -/
def dGet (d : List (String × JVal)) (k : String) (dflt : JVal) : JVal :=
  match d.lookup k with
  | some v => v
  | none => dflt

/-- `v.get(k, dflt)` on an arbitrary value: an `AttributeError` (modelled as
`none`) unless `v` is a dict. -/
def pyGet (v : JVal) (k : String) (dflt : JVal) : Option JVal :=
  match v with
  | .obj kvs => some (dGet kvs k dflt)
  | _ => none

/-- `v[k]` with a string key: a dict lookup (`KeyError` when absent); any
non-dict value raises (`TypeError`), modelled as `none`. -/
def pySubscript (v : JVal) (k : String) : Option JVal :=
  match v with
  | .obj kvs => kvs.lookup k
  | _ => none

/-- `pat` occurs as a contiguous substring of `l`. -/
def subOf (pat : List Char) : List Char → Bool
  | [] => pat.isEmpty
  | c :: cs => pat.isPrefixOf (c :: cs) || subOf pat cs

/-- Equality of a Python string against an arbitrary value (`==` never
raises; a string equals only the equal string). -/
def strEq (k : String) : JVal → Bool
  | .str s => k = s
  | _ => false

/-- Python `k in v` for a string `k`: key membership for dicts, substring
test for strings, element membership for lists; `TypeError` (= `none`) on
any other value. -/
def pyContains (v : JVal) (k : String) : Option Bool :=
  match v with
  | .obj kvs => some (kvs.lookup k).isSome
  | .str s => some (subOf k.data s.data)
  | .arr xs => some (xs.any (strEq k))
  | _ => none

/-- Using a value as a dict (attribute access such as `.get`/iteration on a
supposed mapping): succeeds exactly on dicts. -/
def asObj : JVal → Option (List (String × JVal))
  | .obj kvs => some kvs
  | _ => none

/-- Using a value where `str.join` requires a string element: succeeds
exactly on strings (`TypeError` otherwise). -/
def asStr : JVal → Option String
  | .str s => some s
  | _ => none

mutual

/-- Python `repr` of a value, as used by `str` on containers.  String
escaping inside `repr` is simplified to plain single quotes; no claim
exercises strings containing quote characters. -/
def pyRepr : JVal → String
  | .null => "None"
  | .bool true => "True"
  | .bool false => "False"
  | .num n => toString n
  | .str s => "'" ++ s ++ "'"
  | .arr xs => "[" ++ String.intercalate ", " (pyReprList xs) ++ "]"
  | .obj kvs =>
      "\x7b" ++ String.intercalate ", " (pyReprObj kvs) ++ "\x7d"

/-- `repr` of each element of a list. -/
def pyReprList : List JVal → List String
  | [] => []
  | v :: vs => pyRepr v :: pyReprList vs

/-- `repr` of each `key: value` entry of a dict. -/
def pyReprObj : List (String × JVal) → List String
  | [] => []
  | (k, v) :: kvs => ("'" ++ k ++ "': " ++ pyRepr v) :: pyReprObj kvs

end

/-- Python `str(x)`: the string itself for strings, `repr`-style text for
everything else. -/
def pyStr : JVal → String
  | .str s => s
  | v => pyRepr v

/-- The regex class `\s` of `re.sub` (modelled on its ASCII range; every
claim only exercises the plain space). -/
def isWS (c : Char) : Bool :=
  c = ' ' || c = '\t' || c = '\n' || c = '\r' || c = '\x0b' || c = '\x0c'

/-- After `"<ws>(IM-"` and one digit: consume the remaining digits of
`\d+` and require the closing parenthesis, returning the rest of the
input. -/
def closeParen : List Char → Option (List Char)
  | ')' :: cs => some cs
  | c :: cs => if c.isDigit then closeParen cs else none
  | [] => none

/-- Try to match the regex `\s\(IM-\d+\)` at the head of the input;
on success return what follows the match. -/
def matchIM : List Char → Option (List Char)
  | c1 :: '(' :: 'I' :: 'M' :: '-' :: c2 :: rest =>
      if isWS c1 && c2.isDigit then closeParen rest else none
  | _ => none

/-- Left-to-right global substitution of `\s\(IM-\d+\)` by the empty
string, exactly as `re.sub` scans; the fuel argument is the length of the
input (each step consumes at least one character). -/
def stripIMAux : Nat → List Char → List Char
  | 0, _ => []
  | _ + 1, [] => []
  | fuel + 1, c :: cs =>
      match matchIM (c :: cs) with
      | some rest => stripIMAux fuel rest
      | none => c :: stripIMAux fuel cs

/-- `re.sub(r"\s\(IM-\d+\)", '', s)`. -/
def stripIM (s : String) : String :=
  String.mk (stripIMAux s.data.length s.data)

/-- `TextCleaner.clean_field` (src/main.py lines 29-40): falsy input gives
`""`; a list input cleans each element's text form and joins with `","`;
any other input is cleaned as a scalar. -/
def clean_field (field : JVal) : String :=
  if truthy field = false then ""
  else
    match field with
    | .arr xs => String.intercalate "," (xs.map fun x => stripIM (pyStr x))
    | v => stripIM (pyStr v)

example : clean_field (.str "Disk full (IM-1234)") = "Disk full" := by decide
example : clean_field (.arr [.str "A (IM-1)", .str "B"]) = "A,B" := by decide
example : clean_field .null = "" := by decide

/-- One issue record as the fetcher sees it; the fetcher treats records as
opaque. -/
abbrev Rec := List (String × JVal)

/-- The outcome of one HTTP request in `JiraClient.get_tasks`: either the
parsed `issues` list of a 2xx JSON response, or a `RequestException`
(transport failure or, via `raise_for_status`, a non-2xx status). -/
inductive Response (α : Type) where
  | ok : List α → Response α
  | fail : Response α

/-- What a run of the fetch loop produced: the accumulated records and the
`startAt` offset of every request issued, in request order. -/
structure FetchResult (α : Type) where
  tasks : List α
  offsets : List Nat

/-- The `while True` loop of `JiraClient.get_tasks` (src/main.py lines
54-81), one recursive call per iteration.  The abstract `server` maps a
`startAt` offset to that request's outcome.  `fuel` bounds the number of
iterations so the recursion is total; `none` means the bound was hit while
the loop would still continue (the loop itself has no such bound). -/
def getTasksAux (server : Nat → Response α) (maxResults : Nat) :
    Nat → Nat → List α → List Nat → Option (FetchResult α)
  | 0, _, _, _ => none
  | fuel + 1, startAt, acc, offs =>
      match server startAt with
      | .fail => some ⟨acc, offs ++ [startAt]⟩
      | .ok issues =>
          if issues.length < maxResults then some ⟨acc ++ issues, offs ++ [startAt]⟩
          else getTasksAux server maxResults fuel (startAt + maxResults)
                 (acc ++ issues) (offs ++ [startAt])

/-- `JiraClient.get_tasks` (src/main.py lines 50-83): paginate from offset
0, extending `all_tasks` with each page, stopping on a short page or on a
request error. -/
def get_tasks (server : Nat → Response α) (maxResults : Nat) (fuel : Nat) :
    Option (FetchResult α) :=
  getTasksAux server maxResults fuel 0 [] []

/-- `JiraTaskFormatter.get_nested_value` (src/main.py lines 91-107): total,
never raises. -/
def get_nested_value (data : List (String × JVal)) (key : String)
    (subkey : Option String) : JVal :=
  match data.lookup key with
  | none => .str ""
  | some value =>
      if truthy value = false then .str ""
      else
        match subkey with
        | none => value
        | some sk =>
            if sk = "" then value
            else
              match value with
              | .obj kvs =>
                  match kvs.lookup sk with
                  | some sv => if truthy sv then sv else .str ""
                  | none => .str ""
              | _ => .str ""

/-- `Option`-valued `mapM` over a list, written out so induction unfolds
it directly. -/
def optMapM (f : α → Option β) : List α → Option (List β)
  | [] => some []
  | a :: l => (f a).bind fun b => (optMapM f l).bind fun bs => some (b :: bs)

/-- src/main.py lines 112-113: the `emailAddress` comprehension guarded by
the truthiness of `fields.get("customfield_20145")`; iterating a truthy
non-list or calling `.get` on a non-dict element raises. -/
def l2Emails (fields : List (String × JVal)) : Option (List JVal) :=
  if truthy (dGet fields "customfield_20145" .null) then
    match dGet fields "customfield_20145" (.arr []) with
    | .arr xs => optMapM (fun x => pyGet x "emailAddress" (.str "")) xs
    | _ => none
  else some []

/-- src/main.py lines 118-120: `vendor_related`. -/
def vendorRelated (fields : List (String × JVal)) : Option JVal :=
  match fields.lookup "customfield_20906" with
  | none => some (.str "")
  | some v => if truthy v then pyGet v "value" (.str "") else some (.str "")

/-- src/main.py lines 122-124: `system_owner`. -/
def systemOwner (fields : List (String × JVal)) : Option JVal :=
  if truthy (dGet fields "customfield_20157" .null) then
    (pyContains (dGet fields "customfield_20157" .null) "displayName").bind fun b =>
      if b then pySubscript (dGet fields "customfield_20157" .null) "displayName"
      else some (.str "")
  else some (.str "")

/-- Escape one character for `json.dumps` string output. -/
def jsonEscapeChar (c : Char) : String :=
  if c = '"' then "\\\""
  else if c = '\\' then "\\\\"
  else if c = '\n' then "\\n"
  else if c = '\r' then "\\r"
  else if c = '\t' then "\\t"
  else String.mk [c]

mutual

/-- `json.dumps` with its default separators `', '` and `': '`. -/
def jsonDumps : JVal → String
  | .null => "null"
  | .bool true => "true"
  | .bool false => "false"
  | .num n => toString n
  | .str s => "\"" ++ String.join (s.data.map jsonEscapeChar) ++ "\""
  | .arr xs => "[" ++ String.intercalate ", " (jsonDumpsList xs) ++ "]"
  | .obj kvs => "\x7b" ++ String.intercalate ", " (jsonDumpsObj kvs) ++ "\x7d"

/-- `json.dumps` of each element of a list. -/
def jsonDumpsList : List JVal → List String
  | [] => []
  | v :: vs => jsonDumps v :: jsonDumpsList vs

/-- `json.dumps` of each `"key": value` entry of a dict. -/
def jsonDumpsObj : List (String × JVal) → List String
  | [] => []
  | (k, v) :: kvs =>
      ("\"" ++ String.join (k.data.map jsonEscapeChar) ++ "\": " ++ jsonDumps v) :: jsonDumpsObj kvs

end

/-- src/main.py lines 154-157: the `Problem Links` expression. -/
def problemLinks (fields : List (String × JVal)) : Option String :=
  match fields.lookup "customfield_22301" with
  | none => some ""
  | some v =>
      if truthy v then
        (pyContains v "value").bind fun b =>
          if b then (pySubscript v "value").bind fun sv => some (jsonDumps sv)
          else some ""
      else some ""

/-- Python `x or d`. -/
def orDefault (v d : JVal) : JVal :=
  if truthy v then v else d

/-- One flattened output row: the dict literal of `format_task`, as an
ordered association list. -/
abbrev FlatRow := List (String × JVal)

/-- The dict literal returned by `JiraTaskFormatter.format_task`
(src/main.py lines 126-158), given the values of the fallible
sub-expressions; the infallible entries are computed in place. -/
def mkRow (keyV : JVal) (fields : List (String × JVal)) (l2s : List String)
    (vendor so rep st pr : JVal) (pl : String) : FlatRow :=
  [ ("key", keyV),
    ("summary", dGet fields "summary" (.str "")),
    ("reporter", rep),
    ("L2 Assignee", .str (String.intercalate ", " l2s)),
    ("Responsible Team", .str (clean_field (dGet fields "customfield_20161" (.str "")))),
    ("Incident Detected type", get_nested_value fields "customfield_20163" (some "value")),
    ("Vendor Related Incidents", vendor),
    ("status", st),
    ("priority", pr),
    ("System for incident", .str (clean_field (dGet fields "customfield_20800" (.str "")))),
    ("System Owner", so),
    ("System owner department", .str (clean_field (dGet fields "customfield_20129" (.str "")))),
    ("Impacted Business Process", .str (clean_field (dGet fields "customfield_20160" (.str "")))),
    ("Impacted Systems", .str (clean_field (dGet fields "customfield_20164" (.str "")))),
    ("Incident detected date", dGet fields "customfield_20162" (.str "")),
    ("Incident start date", dGet fields "customfield_20158" (.str "")),
    ("Incident end date", dGet fields "customfield_20159" (.str "")),
    ("Incident Duration", get_nested_value fields "customfield_20908" (some "value")),
    ("Downtime Type", get_nested_value fields "customfield_20901" (some "value")),
    ("Downtime Outage", get_nested_value fields "customfield_20902" (some "value")),
    ("Incident Details", dGet fields "customfield_20136" (.str "")),
    ("Mitigation & Resolution", dGet fields "customfield_20138" (.str "")),
    ("Root Cause Analysis", dGet fields "customfield_20137" (.str "")),
    ("Corrective Actions", dGet fields "customfield_20148" (.str "")),
    ("Incident solution", dGet fields "customfield_20113" (.str "")),
    ("Real downtime duration", dGet fields "customfield_21519" (.str "")),
    ("Error Rate", .str (pyStr (orDefault (dGet fields "customfield_20904" (.num 0)) (.num 0)))),
    ("Problem Links", .str pl) ]

/-- `JiraTaskFormatter.format_task` (src/main.py lines 109-158).  `none`
models an uncaught exception; the `Option.bind` chain lists every
sub-expression that can raise, in the evaluation order of the source
(helpers first, then the dict literal's entries left to right). -/
def format_task (task : Rec) : Option FlatRow :=
  (task.lookup "fields").bind fun fieldsV =>
  (asObj fieldsV).bind fun fields =>
  (l2Emails fields).bind fun l2 =>
  (vendorRelated fields).bind fun vendor =>
  (systemOwner fields).bind fun so =>
  (task.lookup "key").bind fun keyV =>
  (pyGet (dGet fields "reporter" (.obj [])) "displayName" (.str "")).bind fun rep =>
  (optMapM asStr l2).bind fun l2s =>
  (pyGet (dGet fields "status" (.obj [])) "name" (.str "")).bind fun st =>
  (pyGet (dGet fields "priority" (.obj [])) "name" (.str "")).bind fun pr =>
  (problemLinks fields).bind fun pl =>
  some (mkRow keyV fields l2s vendor so rep st pr pl)

/-- The column names of `format_task`'s row, in source order. -/
def format_columns : List String :=
  [ "key", "summary", "reporter", "L2 Assignee", "Responsible Team",
    "Incident Detected type", "Vendor Related Incidents", "status", "priority",
    "System for incident", "System Owner", "System owner department",
    "Impacted Business Process", "Impacted Systems", "Incident detected date",
    "Incident start date", "Incident end date", "Incident Duration",
    "Downtime Type", "Downtime Outage", "Incident Details",
    "Mitigation & Resolution", "Root Cause Analysis", "Corrective Actions",
    "Incident solution", "Real downtime duration", "Error Rate", "Problem Links" ]

/-- `CSVExporter.fieldnames` (src/main.py lines 173-182), in source
order. -/
def fieldnames : List String :=
  [ "key", "summary", "reporter", "L2 Assignee", "Responsible Team",
    "Incident Detected type", "Vendor Related Incidents", "status", "priority",
    "System for incident", "System Owner", "System owner department",
    "Impacted Business Process", "Impacted Systems", "Incident detected date",
    "Incident start date", "Incident end date", "Downtime Type", "Downtime Outage",
    "Incident Duration", "Incident Details", "Root Cause Analysis",
    "Mitigation & Resolution", "Corrective Actions", "Incident solution",
    "Real downtime duration", "Error Rate", "Problem Links" ]

/-- The observable outcome of `JiraTaskExporter.export_tasks`: the empty
early return, an uncaught formatter exception, or exactly one call to the
exporter with the full row list. -/
inductive RunOutcome where
  | noTasks : RunOutcome
  | crashed : RunOutcome
  | wrote : List FlatRow → RunOutcome

/-- `JiraTaskExporter.export_tasks` (src/main.py lines 209-218) applied to
the already-fetched record list: empty list → report and stop without
touching the exporter; otherwise format every record in order and hand the
whole list to the exporter in one call. -/
def export_tasks (tasks : List Rec) : RunOutcome :=
  if tasks.isEmpty then .noTasks
  else
    match optMapM format_task tasks with
    | none => .crashed
    | some rows => .wrote rows

/-- The whole run for a given server: `get_tasks` with the default page
size 50, then `export_tasks` (src/main.py lines 209-218). -/
def run_export (server : Nat → Response Rec) (fuel : Nat) : Option RunOutcome :=
  (get_tasks server 50 fuel).map fun r => export_tasks r.tasks

/-- `csv` QUOTE_MINIMAL: a field is quoted iff it contains the delimiter,
the quote character, or a character of the line terminator `"\r\n"`. -/
def needsQuote (delim : Char) (s : List Char) : Bool :=
  s.any fun c => c = delim || c = '"' || c = '\r' || c = '\n'

/-- Double every quote character, as the `csv` writer escapes quotes
inside a quoted field. -/
def escQ : List Char → List Char
  | [] => []
  | c :: cs => if c = '"' then '"' :: '"' :: escQ cs else c :: escQ cs

/-- Serialize one field under QUOTE_MINIMAL. -/
def renderField (delim : Char) (s : String) : List Char :=
  if needsQuote delim s.data then '"' :: (escQ s.data ++ ['"']) else s.data

/-- Join pieces with a separator (the delimiter between fields of a
line). -/
def joinSep (sep : List Char) : List (List Char) → List Char
  | [] => []
  | f :: fs =>
      match fs with
      | [] => f
      | _ :: _ => f ++ sep ++ joinSep sep fs

/-- Serialize one CSV line (without its terminator). -/
def renderLine (delim : Char) (fs : List String) : List Char :=
  joinSep [delim] (fs.map (renderField delim))

/-- The full text the `csv` writer produces: every line, header included,
terminated by the default line terminator `"\r\n"`. -/
def csvContent (delim : Char) (rows : List (List String)) : List Char :=
  (rows.map fun r => renderLine delim r ++ ['\r', '\n']).flatten

/-- `DictWriter` row projection: the cell for each field name, `restval`
`""` when the key is missing from the row dict. -/
def rowCells (row : List (String × String)) (fns : List String) : List String :=
  fns.map fun f => ((row.lookup f).getD "")

/-- `DictWriter`'s check of `extrasaction="raise"`: a row key outside the
field names is a `ValueError`. -/
def hasExtraKey (fns : List String) (row : List (String × String)) : Bool :=
  row.any fun kv => !(fns.contains kv.1)

/-- `CSVExporter.export` (src/main.py lines 184-197) as text production:
header line from `fieldnames`, then one line per row in the given order.
`none` is the `ValueError` path for an extra key (the caught exception
leaves a partial file).  The BOM of the `utf-8-sig` encoding is an
encoding-layer artifact and is not part of the decoded text modelled
here. -/
def csv_export (delim : Char) (fns : List String)
    (rows : List (List (String × String))) : Option (List Char) :=
  if rows.any (hasExtraKey fns) then none
  else some (csvContent delim (fns :: rows.map (rowCells · fns)))

/-- Parse the fields of one CSV line: `l`, then the in-quotes flag, the
current field (reversed), and the fields already finished. -/
def parseLineAux (delim : Char) : List Char → Bool → List Char → List String → List String
  | [], _, cur, acc => acc ++ [String.mk cur.reverse]
  | c :: cs, true, cur, acc =>
      if c = '"' then
        match cs with
        | [] => acc ++ [String.mk cur.reverse]
        | c2 :: cs2 =>
            if c2 = '"' then parseLineAux delim cs2 true ('"' :: cur) acc
            else parseLineAux delim (c2 :: cs2) false cur acc
      else parseLineAux delim cs true (c :: cur) acc
  | c :: cs, false, cur, acc =>
      if c = delim then parseLineAux delim cs false [] (acc ++ [String.mk cur.reverse])
      else if c = '"' then parseLineAux delim cs true cur acc
      else parseLineAux delim cs false (c :: cur) acc

/-- Parse one CSV line into its fields, undoing the quoting. -/
def parseLine (delim : Char) (l : List Char) : List String :=
  parseLineAux delim l false [] []

/-- Split text into lines at `"\r\n"`, `"\r"` or `"\n"` (universal
newlines, as re-reading the file does); a trailing terminator yields no
extra empty line. -/
def splitLinesAux : List Char → List Char → List (List Char)
  | [], acc => if acc.isEmpty then [] else [acc.reverse]
  | '\r' :: '\n' :: cs, acc => acc.reverse :: splitLinesAux cs []
  | '\r' :: cs, acc => acc.reverse :: splitLinesAux cs []
  | '\n' :: cs, acc => acc.reverse :: splitLinesAux cs []
  | c :: cs, acc => splitLinesAux cs (c :: acc)

/-- The physical lines of a text. -/
def splitLines (content : List Char) : List (List Char) :=
  splitLinesAux content []

/-! ## Fetcher lemmas -/

/-- Every completed run of the fetch loop has issued the request at its
current offset: the offset trace extends `offs ++ [startAt]`. -/
theorem getTasksAux_offsets_extend {α : Type} (server : Nat → Response α)
    (ps : Nat) :
    ∀ (fuel startAt : Nat) (acc : List α) (offs : List Nat) (r : FetchResult α),
      getTasksAux server ps fuel startAt acc offs = some r →
      ∃ t, r.offsets = (offs ++ [startAt]) ++ t := by
  intro fuel
  induction fuel with
  | zero => intro startAt acc offs r h; simp [getTasksAux] at h
  | succ fuel ih =>
      intro startAt acc offs r h
      rw [getTasksAux] at h
      cases hs : server startAt with
      | fail =>
          rw [hs] at h
          dsimp only at h
          obtain rfl := (Option.some.inj h).symm
          exact ⟨[], by simp⟩
      | ok issues =>
          rw [hs] at h
          dsimp only at h
          split at h
          · obtain rfl := (Option.some.inj h).symm
            exact ⟨[], by simp⟩
          · obtain ⟨t, ht⟩ := ih _ _ _ _ h
            exact ⟨[startAt + ps] ++ t, by simp [ht]⟩

/-- Claim C1: for every server returning pages of sizes 50, 50, 12 at page
size 50, the fetcher returns exactly 112 records — the three pages
concatenated in request order — and issues exactly 3 requests, at offsets
0, 50 and 100. -/
theorem fetch_three_pages {α : Type} (server : Nat → Response α)
    (p0 p1 p2 : List α)
    (h0 : server 0 = .ok p0) (hl0 : p0.length = 50)
    (h1 : server 50 = .ok p1) (hl1 : p1.length = 50)
    (h2 : server 100 = .ok p2) (hl2 : p2.length = 12)
    (fuel : Nat) (hfuel : 3 ≤ fuel) :
    get_tasks server 50 fuel = some ⟨p0 ++ p1 ++ p2, [0, 50, 100]⟩ ∧
    (p0 ++ p1 ++ p2).length = 112 := by
  obtain ⟨f, rfl⟩ : ∃ f, fuel = f + 3 := ⟨fuel - 3, by omega⟩
  constructor
  · show getTasksAux server 50 (f + 3) 0 [] [] = _
    rw [getTasksAux]
    rw [h0]
    dsimp only
    rw [if_neg (by omega)]
    rw [show (0 : Nat) + 50 = 50 from rfl, getTasksAux, h1]
    dsimp only
    rw [if_neg (by omega)]
    rw [show (50 : Nat) + 50 = 100 from rfl, getTasksAux, h2]
    dsimp only
    rw [if_pos (by omega)]
    simp
  · simp [hl0, hl1, hl2]

/-- A concrete stub server for claim C1: pages of sizes 50, 50 and 12. -/
def c1Server : Nat → Response Nat := fun off =>
  if off = 0 then .ok (List.replicate 50 0)
  else if off = 50 then .ok (List.replicate 50 1)
  else .ok (List.replicate 12 2)

/-- Witness for C1 at the concrete stub server. -/
theorem fetch_three_pages_witness :
    get_tasks c1Server 50 3 =
      some ⟨List.replicate 50 0 ++ List.replicate 50 1 ++ List.replicate 12 2,
            [0, 50, 100]⟩ ∧
    (List.replicate 50 (0 : Nat) ++ List.replicate 50 1 ++ List.replicate 12 2).length = 112 :=
  fetch_three_pages c1Server _ _ _ rfl (by simp) rfl (by simp) rfl (by simp) 3 (by omega)

/-- A concrete stub server for claim C2: one full page of 50 records at
offset 0, then every request fails. -/
def c2Server : Nat → Response Nat := fun off =>
  if off = 0 then .ok (List.replicate 50 7) else .fail

/-- Counterexample to claim C2 as stated: with a stub server returning
exactly one page of size 50 and a failing follow-up, the fetcher issues 2
requests in total (offsets 0 and 50), not 4 — there is no 4th request. -/
theorem fetch_fail_counterexample :
    (get_tasks c2Server 50 10).map (fun r => (r.tasks.length, r.offsets)) =
      some (50, [0, 50]) ∧
    ¬ ((get_tasks c2Server 50 10).map (fun r => r.offsets.length) = some 4) := by
  constructor
  · rfl
  · intro h
    simp only [show get_tasks c2Server 50 10 =
        some ⟨List.replicate 50 7, [0, 50]⟩ from rfl, Option.map_some] at h
    simp at h

/-- Claim C2 (amended): whenever a request fails, the fetch stops at that
request and returns exactly the records accumulated from the earlier
successful pages; in particular, for a stub server returning exactly one
page of size 50 (equal to the page size), the fetcher issues a 2nd
confirming request and, if it fails, still returns the 50 already
accumulated. -/
theorem fetch_fail_returns_accumulated :
    (∀ {α : Type} (server : Nat → Response α) (ps fuel startAt : Nat)
       (acc : List α) (offs : List Nat),
        server startAt = .fail →
        getTasksAux server ps (fuel + 1) startAt acc offs = some ⟨acc, offs ++ [startAt]⟩) ∧
    (∀ {α : Type} (server : Nat → Response α) (p0 : List α),
        server 0 = .ok p0 → p0.length = 50 → server 50 = .fail →
        ∀ fuel, 2 ≤ fuel →
          get_tasks server 50 fuel = some ⟨p0, [0, 50]⟩) := by
  constructor
  · intro α server ps fuel startAt acc offs hfail
    rw [getTasksAux, hfail]
  · intro α server p0 h0 hl0 hfail fuel hfuel
    obtain ⟨f, rfl⟩ : ∃ f, fuel = f + 2 := ⟨fuel - 2, by omega⟩
    show getTasksAux server 50 (f + 2) 0 [] [] = _
    rw [getTasksAux, h0]
    dsimp only
    rw [if_neg (by omega)]
    rw [show (0 : Nat) + 50 = 50 from rfl, getTasksAux, hfail]
    simp

/-- Witness for the amended C2 at the concrete stub server. -/
theorem fetch_fail_returns_accumulated_witness :
    getTasksAux c2Server 50 (0 + 1) 50 (List.replicate 50 7) [0] =
      some ⟨List.replicate 50 7, [0] ++ [50]⟩ ∧
    get_tasks c2Server 50 2 = some ⟨List.replicate 50 7, [0, 50]⟩ :=
  ⟨fetch_fail_returns_accumulated.1 c2Server 50 0 50 _ [0] rfl,
   fetch_fail_returns_accumulated.2 c2Server _ rfl (by simp) rfl 2 (by omega)⟩

/-- Claim C5: a page of exactly `ps` records never ends the loop — the
fetch continues at the next offset (first conjunct: the loop state steps
to `startAt + ps`; second conjunct: any completed run that saw such a page
really issued a request at the next offset); and a run can only terminate
successfully on a short page (third conjunct: if the last requested offset
got an `ok` page, that page is shorter than the page size). -/
theorem fetch_full_page_continues :
    (∀ {α : Type} (server : Nat → Response α) (ps fuel startAt : Nat)
       (acc issues : List α) (offs : List Nat),
        server startAt = .ok issues → issues.length = ps →
        getTasksAux server ps (fuel + 1) startAt acc offs =
          getTasksAux server ps fuel (startAt + ps) (acc ++ issues) (offs ++ [startAt])) ∧
    (∀ {α : Type} (server : Nat → Response α) (ps fuel startAt : Nat)
       (acc issues : List α) (offs : List Nat) (r : FetchResult α),
        server startAt = .ok issues → issues.length = ps →
        getTasksAux server ps fuel startAt acc offs = some r →
        startAt + ps ∈ r.offsets) ∧
    (∀ {α : Type} (server : Nat → Response α) (ps fuel startAt : Nat)
       (acc : List α) (offs : List Nat) (r : FetchResult α)
       (lastOff : Nat) (lastPage : List α),
        getTasksAux server ps fuel startAt acc offs = some r →
        r.offsets.getLast? = some lastOff →
        server lastOff = .ok lastPage →
        lastPage.length < ps) := by
  refine ⟨?_, ?_, ?_⟩
  · intro α server ps fuel startAt acc issues offs hok hlen
    rw [getTasksAux, hok]
    dsimp only
    rw [if_neg (by omega)]
  · intro α server ps fuel startAt acc issues offs r hok hlen h
    match fuel with
    | 0 => simp [getTasksAux] at h
    | fuel + 1 =>
        rw [getTasksAux, hok] at h
        dsimp only at h
        rw [if_neg (by omega)] at h
        obtain ⟨t, ht⟩ := getTasksAux_offsets_extend server ps fuel _ _ _ _ h
        simp [ht]
  · intro α server ps fuel
    induction fuel with
    | zero => intro startAt acc offs r lastOff lastPage h; simp [getTasksAux] at h
    | succ fuel ih =>
        intro startAt acc offs r lastOff lastPage h hlast hok
        rw [getTasksAux] at h
        cases hs : server startAt with
        | fail =>
            rw [hs] at h
            dsimp only at h
            obtain rfl := (Option.some.inj h).symm
            simp only [List.getLast?_concat, Option.some.injEq] at hlast
            rw [← hlast] at hok
            rw [hs] at hok
            exact absurd hok (by intro hc; cases hc)
        | ok issues =>
            rw [hs] at h
            dsimp only at h
            split at h
            · obtain rfl := (Option.some.inj h).symm
              simp only [List.getLast?_concat, Option.some.injEq] at hlast
              rw [← hlast, hs] at hok
              obtain rfl := (Response.ok.inj hok)
              assumption
            · exact ih _ _ _ _ _ _ h hlast hok

/-- Witness for C5 at a concrete server: one full page at offset 0, then
an empty page at offset 50. -/
def c5Server : Nat → Response Nat := fun off =>
  if off = 0 then .ok (List.replicate 50 3) else .ok []

/-- Witness for C5: instantiating all three conjuncts at `c5Server`. -/
theorem fetch_full_page_continues_witness :
    (getTasksAux c5Server 50 (1 + 1) 0 [] [] =
       getTasksAux c5Server 50 1 (0 + 50) ([] ++ List.replicate 50 3) ([] ++ [0])) ∧
    (0 + 50) ∈ (FetchResult.mk (List.replicate 50 3 ++ ([] : List Nat)) [0, 50]).offsets ∧
    ([] : List Nat).length < 50 :=
  ⟨fetch_full_page_continues.1 c5Server 50 1 0 [] _ [] rfl (by simp),
   by
     have h2 := fetch_full_page_continues.2.1 c5Server 50 2 0 [] (List.replicate 50 3) []
       (FetchResult.mk (List.replicate 50 3 ++ ([] : List Nat)) [0, 50]) rfl (by simp) rfl
     exact h2,
   fetch_full_page_continues.2.2 c5Server 50 2 0 [] []
     (FetchResult.mk (List.replicate 50 3 ++ ([] : List Nat)) [0, 50]) 50 [] rfl rfl rfl⟩

/-- Claim C10: a failure of the very first request makes the fetch return
the empty sequence, so the orchestrator takes the "no results" path — the
writer is never invoked (outcome `noTasks`) — and at the public interface
this run is indistinguishable from one against a server whose first page
is genuinely empty. -/
theorem first_request_fail_like_empty (server server2 : Nat → Response Rec)
    (fuel : Nat) (hfuel : 1 ≤ fuel)
    (hfail : server 0 = .fail) (hempty : server2 0 = .ok []) :
    run_export server fuel = some .noTasks ∧
    run_export server2 fuel = some .noTasks := by
  obtain ⟨f, rfl⟩ : ∃ f, fuel = f + 1 := ⟨fuel - 1, by omega⟩
  constructor
  · show ((getTasksAux server 50 (f + 1) 0 [] []).map fun r => export_tasks r.tasks) = _
    rw [getTasksAux, hfail]
    simp [export_tasks]
  · show ((getTasksAux server2 50 (f + 1) 0 [] []).map fun r => export_tasks r.tasks) = _
    rw [getTasksAux, hempty]
    simp [export_tasks]

/-- A server for the C10 witness whose every request fails. -/
def c10FailServer : Nat → Response Rec := fun _ => .fail

/-- A server for the C10 witness whose every page is empty. -/
def c10EmptyServer : Nat → Response Rec := fun _ => .ok []

/-- Witness for C10 at the two concrete servers. -/
theorem first_request_fail_like_empty_witness :
    run_export c10FailServer 1 = some .noTasks ∧
    run_export c10EmptyServer 1 = some .noTasks :=
  first_request_fail_like_empty c10FailServer c10EmptyServer 1 (by omega) rfl rfl

/-- Claim C3: `clean_field` is total (it is a plain function into
`String`, so it returns text and never raises); every falsy input —
`None`, `[]`, `""`, and the rest — yields `""`; a scalar has every
`" (IM-<digits>)"` occurrence stripped from its text form, so
`clean("Disk full (IM-1234)") = "Disk full"`; a non-empty list cleans each
element's text form the same way and joins with `","`, so
`clean(["A (IM-1)", "B"]) = "A,B"`. -/
theorem clean_field_total_spec :
    (∀ x : JVal, truthy x = false → clean_field x = "") ∧
    clean_field .null = "" ∧
    clean_field (.arr []) = "" ∧
    clean_field (.str "Disk full (IM-1234)") = "Disk full" ∧
    clean_field (.arr [.str "A (IM-1)", .str "B"]) = "A,B" ∧
    (∀ s : String, s ≠ "" → clean_field (.str s) = stripIM s) ∧
    (∀ xs : List JVal, xs ≠ [] →
       clean_field (.arr xs) = String.intercalate "," (xs.map fun x => stripIM (pyStr x))) := by
  refine ⟨?_, by decide, by decide, by decide, by decide, ?_, ?_⟩
  · intro x h
    simp [clean_field, h]
  · intro s h
    have ht : truthy (.str s) = true := by simp [truthy, h]
    simp [clean_field, ht, pyStr]
  · intro xs h
    have ht : truthy (.arr xs) = true := by simp [truthy, h]
    simp [clean_field, ht]

/-- Witness for C3: each conditional conjunct instantiated at a concrete
input. -/
theorem clean_field_total_spec_witness :
    clean_field (.num 0) = "" ∧
    clean_field (.str "x (IM-27) y") = stripIM "x (IM-27) y" ∧
    clean_field (.arr [.null]) =
      String.intercalate "," ([JVal.null].map fun x => stripIM (pyStr x)) :=
  ⟨clean_field_total_spec.1 (.num 0) rfl,
   clean_field_total_spec.2.2.2.2.2.1 "x (IM-27) y" (by decide),
   clean_field_total_spec.2.2.2.2.2.2 [.null] (by simp)⟩

/-- Every accepted record produces a row with exactly the column keys of
`format_columns`, in that order: the row literal of `format_task` has a
static key list. -/
theorem format_task_keys (task : Rec) (row : FlatRow)
    (h : format_task task = some row) : row.map Prod.fst = format_columns := by
  simp only [format_task, Option.bind_eq_some, Option.some.injEq] at h
  obtain ⟨fv, h1, fs, h2, l2, h3, vd, h4, so, h5, kv, h6, rep, h7, l2s, h8,
          st, h9, pr, h10, pl, h11, hrow⟩ := h
  subst hrow
  rfl

/-- Claim C4: every accepted record's row has the same fixed set of 28
column keys, and that set coincides with the 28 names of the Writer's
canonical header. -/
theorem flatten_columns_match_writer :
    (∀ (task : Rec) (row : FlatRow), format_task task = some row →
        row.map Prod.fst = format_columns) ∧
    format_columns.length = 28 ∧
    fieldnames.length = 28 ∧
    (∀ c : String, c ∈ format_columns ↔ c ∈ fieldnames) := by
  refine ⟨format_task_keys, by decide, by decide, ?_⟩
  have hp : format_columns.Perm fieldnames := by decide
  exact fun c => hp.mem_iff

/-- The row `format_task` produces when every field of the record is
absent: every column defaults (`Error Rate` to `"0"`). -/
def defaultRow (k : JVal) : FlatRow :=
  [ ("key", k),
    ("summary", .str ""),
    ("reporter", .str ""),
    ("L2 Assignee", .str ""),
    ("Responsible Team", .str ""),
    ("Incident Detected type", .str ""),
    ("Vendor Related Incidents", .str ""),
    ("status", .str ""),
    ("priority", .str ""),
    ("System for incident", .str ""),
    ("System Owner", .str ""),
    ("System owner department", .str ""),
    ("Impacted Business Process", .str ""),
    ("Impacted Systems", .str ""),
    ("Incident detected date", .str ""),
    ("Incident start date", .str ""),
    ("Incident end date", .str ""),
    ("Incident Duration", .str ""),
    ("Downtime Type", .str ""),
    ("Downtime Outage", .str ""),
    ("Incident Details", .str ""),
    ("Mitigation & Resolution", .str ""),
    ("Root Cause Analysis", .str ""),
    ("Corrective Actions", .str ""),
    ("Incident solution", .str ""),
    ("Real downtime duration", .str ""),
    ("Error Rate", .str "0"),
    ("Problem Links", .str "") ]

/-- Witness for C4: the record with an empty `fields` dict is accepted and
its row's key list is the fixed column list. -/
theorem flatten_columns_match_writer_witness :
    (defaultRow (.str "K")).map Prod.fst = format_columns ∧
    ("key" ∈ format_columns ↔ "key" ∈ fieldnames) :=
  ⟨flatten_columns_match_writer.1 [("key", .str "K"), ("fields", .obj [])]
     (defaultRow (.str "K")) rfl,
   flatten_columns_match_writer.2.2.2 "key"⟩

/-- The spec's "conditional nested extraction" policy, transcribed from
its words: read `fields[key]` only if the key exists and its value is
truthy, then read the named attribute from it, defaulting to the empty
string. -/
def condNestedPolicy (fields : List (String × JVal)) (key attr : String) : JVal :=
  match fields.lookup key with
  | none => .str ""
  | some v =>
      if truthy v then
        match v with
        | .obj kvs => dGet kvs attr (.str "")
        | _ => .str ""
      else .str ""

/-- On accepted records, the `vendor_related` computation of the source
agrees with the spec's conditional nested extraction policy. -/
theorem vendorRelated_eq_policy (fs : List (String × JVal)) (vd : JVal)
    (h : vendorRelated fs = some vd) :
    vd = condNestedPolicy fs "customfield_20906" "value" := by
  simp only [vendorRelated] at h
  simp only [condNestedPolicy]
  cases hl : fs.lookup "customfield_20906" with
  | none =>
      rw [hl] at h
      dsimp only at h
      exact (Option.some.inj h).symm
  | some v =>
      rw [hl] at h
      dsimp only at h
      cases ht : truthy v with
      | false =>
          rw [ht] at h
          simp only [if_false, Bool.false_eq_true] at h
          simp [ht, (Option.some.inj h).symm]
      | true =>
          rw [ht] at h
          simp only [if_true] at h
          cases v with
          | obj kvs =>
              simp only [pyGet] at h
              simp [ht, (Option.some.inj h).symm]
          | null => simp [pyGet] at h
          | bool b => simp [pyGet] at h
          | num n => simp [pyGet] at h
          | str s => simp [pyGet] at h
          | arr xs => simp [pyGet] at h

/-- On accepted records, the `system_owner` computation of the source
agrees with the spec's conditional nested extraction policy. -/
theorem systemOwner_eq_policy (fs : List (String × JVal)) (so : JVal)
    (h : systemOwner fs = some so) :
    so = condNestedPolicy fs "customfield_20157" "displayName" := by
  simp only [systemOwner, dGet] at h
  simp only [condNestedPolicy]
  cases hl : fs.lookup "customfield_20157" with
  | none =>
      rw [hl] at h
      simp only [truthy, if_false, Bool.false_eq_true] at h
      exact (Option.some.inj h).symm
  | some v =>
      rw [hl] at h
      dsimp only at h
      cases ht : truthy v with
      | false =>
          rw [ht] at h
          simp only [if_false, Bool.false_eq_true] at h
          simp [ht, (Option.some.inj h).symm]
      | true =>
          rw [ht] at h
          simp only [if_true] at h
          cases v with
          | obj kvs =>
              simp only [pyContains, Option.some_bind] at h
              cases hlv : kvs.lookup "displayName" with
              | some sv =>
                  rw [hlv] at h
                  simp only [Option.isSome_some, if_true] at h
                  simp only [pySubscript] at h
                  rw [hlv] at h
                  simp [ht, dGet, hlv, (Option.some.inj h).symm]
              | none =>
                  rw [hlv] at h
                  simp only [Option.isSome_none, Bool.false_eq_true, if_false] at h
                  simp [ht, dGet, hlv, (Option.some.inj h).symm]
          | str s =>
              simp only [pyContains, Option.some_bind] at h
              split at h
              · simp [pySubscript] at h
              · obtain rfl := (Option.some.inj h).symm
                simp [ht]
          | arr xs =>
              simp only [pyContains, Option.some_bind] at h
              split at h
              · simp [pySubscript] at h
              · obtain rfl := (Option.some.inj h).symm
                simp [ht]
          | null => simp [truthy] at ht
          | bool b => simp [pyContains] at h
          | num n => simp [pyContains] at h

/-- Claim C6: on every accepted record, the columns `System Owner` and
`Vendor Related Incidents` equal the spec's conditional nested extraction
of `customfield_20157` / `displayName` resp. `customfield_20906` /
`value`; in particular a record missing `customfield_20906` and one with
`customfield_20906 = null` both give `""` for `Vendor Related
Incidents`. -/
theorem conditional_nested_extraction :
    (∀ (task : Rec) (row : FlatRow) (fs : List (String × JVal)),
        format_task task = some row →
        task.lookup "fields" = some (.obj fs) →
        row.lookup "Vendor Related Incidents" =
          some (condNestedPolicy fs "customfield_20906" "value") ∧
        row.lookup "System Owner" =
          some (condNestedPolicy fs "customfield_20157" "displayName")) ∧
    ((format_task [("key", .str "T"), ("fields", .obj [])]).map
        (fun r => r.lookup "Vendor Related Incidents")) = some (some (.str "")) ∧
    ((format_task [("key", .str "T"),
        ("fields", .obj [("customfield_20906", .null)])]).map
        (fun r => r.lookup "Vendor Related Incidents")) = some (some (.str "")) := by
  refine ⟨?_, rfl, rfl⟩
  intro task row fs h hf
  simp only [format_task, Option.bind_eq_some, Option.some.injEq] at h
  obtain ⟨fv, h1, fields, h2, l2, h3, vd, h4, so, h5, kv, h6, rep, h7, l2s, h8,
          st, h9, pr, h10, pl, h11, hrow⟩ := h
  rw [hf] at h1
  obtain rfl := (Option.some.inj h1).symm
  simp only [asObj, Option.some.injEq] at h2
  subst h2
  subst hrow
  constructor
  · show some vd = _
    rw [vendorRelated_eq_policy fs vd h4]
  · show some so = _
    rw [systemOwner_eq_policy fs so h5]

/-- Witness for C6: the empty-fields record, where both columns default to
the empty string. -/
theorem conditional_nested_extraction_witness :
    (defaultRow (.str "T")).lookup "Vendor Related Incidents" =
      some (condNestedPolicy [] "customfield_20906" "value") ∧
    (defaultRow (.str "T")).lookup "System Owner" =
      some (condNestedPolicy [] "customfield_20157" "displayName") :=
  conditional_nested_extraction.1 [("key", .str "T"), ("fields", .obj [])]
    (defaultRow (.str "T")) [] rfl rfl

/-- Counterexample to claim C7 as stated: a record whose `fields` contains
`"reporter": null` makes `format_task` raise (the chained
`.get("displayName", "")` is called on `None`), and a record with
`"summary": null` flattens with `null` — not the empty string — in the
`summary` column.  So a null entry neither always defaults to `""` nor
never raises. -/
theorem flatten_null_entry_counterexample :
    format_task [("key", .str "K"), ("fields", .obj [("reporter", .null)])] = none ∧
    ((format_task [("key", .str "K"), ("fields", .obj [("summary", .null)])]).map
        (fun r => r.lookup "summary")) = some (some .null) ∧
    JVal.null ≠ JVal.str "" :=
  ⟨rfl, rfl, by intro h; cases h⟩

/-- Claim C7 (amended): `format_task` raises on every record missing the
top-level `fields` mapping and on every record missing `key`; a record
having both whose fields are simply absent never raises — the record with
an empty `fields` dict flattens to the all-default row (with `Error Rate`
`"0"`). -/
theorem flatten_shape_errors :
    (∀ task : Rec, task.lookup "fields" = none → format_task task = none) ∧
    (∀ (task : Rec) (fs : List (String × JVal)),
        task.lookup "fields" = some (.obj fs) → task.lookup "key" = none →
        format_task task = none) ∧
    (∀ k : JVal, format_task [("key", k), ("fields", .obj [])] = some (defaultRow k)) := by
  refine ⟨?_, ?_, fun k => rfl⟩
  · intro task h
    simp [format_task, h]
  · intro task fs h1 hkey
    rcases h3 : l2Emails fs with _ | l2 <;>
      rcases h4 : vendorRelated fs with _ | vd <;>
        rcases h5 : systemOwner fs with _ | so <;>
          simp [format_task, h1, asObj, h3, h4, h5, hkey]

/-- Witness for the amended C7: a record with no `fields`, a record with
`fields` but no `key`, and the empty-fields record. -/
theorem flatten_shape_errors_witness :
    format_task [] = none ∧
    format_task [("fields", .obj [])] = none ∧
    format_task [("key", .str "W"), ("fields", .obj [])] = some (defaultRow (.str "W")) :=
  ⟨flatten_shape_errors.1 [] rfl,
   flatten_shape_errors.2.1 [("fields", .obj [])] [] rfl rfl,
   flatten_shape_errors.2.2 (.str "W")⟩

/-- A successful `optMapM` preserves length. -/
theorem optMapM_length (f : α → Option β) :
    ∀ (l : List α) (res : List β), optMapM f l = some res → res.length = l.length := by
  intro l
  induction l with
  | nil => intro res h; simp only [optMapM, Option.some.injEq] at h; subst h; rfl
  | cons a l ih =>
      intro res h
      simp only [optMapM, Option.bind_eq_some, Option.some.injEq] at h
      obtain ⟨b, hb, bs, hbs, hres⟩ := h
      subst hres
      simp [ih bs hbs]

/-- A successful `optMapM` maps the `i`-th input to the `i`-th output. -/
theorem optMapM_get? (f : α → Option β) :
    ∀ (l : List α) (res : List β), optMapM f l = some res →
      ∀ (i : Nat) (a : α), l.get? i = some a →
        ∃ b, res.get? i = some b ∧ f a = some b := by
  intro l
  induction l with
  | nil => intro res h i a ha; simp at ha
  | cons x l ih =>
      intro res h i a ha
      simp only [optMapM, Option.bind_eq_some, Option.some.injEq] at h
      obtain ⟨b, hb, bs, hbs, hres⟩ := h
      subst hres
      cases i with
      | zero =>
          simp only [List.get?_cons_zero, Option.some.injEq] at ha
          subst ha
          exact ⟨b, rfl, hb⟩
      | succ i =>
          simp only [List.get?_cons_succ] at ha ⊢
          exact ih bs hbs i a ha

/-- Claim C8: an empty fetch result makes the orchestrator stop on the
"no results" path without ever invoking the writer (outcome `noTasks`,
so no output file is created or modified); a non-empty result is flattened
one-to-one, in order, and the full row list is handed to the writer in one
call. -/
theorem orchestrator_empty_and_nonempty :
    export_tasks [] = .noTasks ∧
    (∀ (tasks : List Rec) (rows : List FlatRow),
        tasks ≠ [] → optMapM format_task tasks = some rows →
        export_tasks tasks = .wrote rows ∧
        rows.length = tasks.length ∧
        (∀ (i : Nat) (t : Rec), tasks.get? i = some t →
            ∃ r, rows.get? i = some r ∧ format_task t = some r)) := by
  refine ⟨rfl, ?_⟩
  intro tasks rows hne hmap
  refine ⟨?_, optMapM_length _ _ _ hmap, optMapM_get? _ _ _ hmap⟩
  rw [export_tasks, if_neg (by simpa using hne), hmap]

/-- Witness for C8: a one-record fetch result is flattened and written as
one row. -/
theorem orchestrator_empty_and_nonempty_witness :
    export_tasks [[("key", JVal.str "K"), ("fields", JVal.obj [])]] =
      .wrote [defaultRow (.str "K")] ∧
    [defaultRow (.str "K")].length =
      [[("key", JVal.str "K"), ("fields", JVal.obj [])]].length :=
  ⟨(orchestrator_empty_and_nonempty.2 [[("key", JVal.str "K"), ("fields", JVal.obj [])]]
      [defaultRow (.str "K")] (by simp) rfl).1,
   (orchestrator_empty_and_nonempty.2 [[("key", JVal.str "K"), ("fields", JVal.obj [])]]
      [defaultRow (.str "K")] (by simp) rfl).2.1⟩

/-- A character other than CR and LF is pushed onto the current line by
the line splitter. -/
theorem splitLinesAux_cons_ne (c : Char) (cs acc : List Char)
    (h1 : c ≠ '\r') (h2 : c ≠ '\n') :
    splitLinesAux (c :: cs) acc = splitLinesAux cs (c :: acc) := by
  rw [splitLinesAux.eq_def]
  split
  · simp_all
  · simp_all
  · simp_all
  · simp_all
  · rename_i heq
    injection heq with hc hcs
    subst hc
    subst hcs
    rfl

/-- Splitting the concatenation of CRLF-terminated CR/LF-free lines
recovers exactly those lines. -/
theorem splitLines_flatten (lines : List (List Char))
    (h : ∀ l ∈ lines, '\r' ∉ l ∧ '\n' ∉ l) :
    splitLines ((lines.map (· ++ ['\r', '\n'])).flatten) = lines := by
  have step : ∀ (l t acc : List Char), '\r' ∉ l → '\n' ∉ l →
      splitLinesAux (l ++ '\r' :: '\n' :: t) acc = (acc.reverse ++ l) :: splitLinesAux t [] := by
    intro l
    induction l with
    | nil => intro t acc _ _; simp [splitLinesAux]
    | cons c l ih =>
        intro t acc hr hn
        rw [List.cons_append, splitLinesAux_cons_ne c _ acc
            (by intro hc; exact hr (hc ▸ List.mem_cons_self c l))
            (by intro hc; exact hn (hc ▸ List.mem_cons_self c l))]
        rw [ih t (c :: acc) (fun hm => hr (List.mem_cons_of_mem c hm))
            (fun hm => hn (List.mem_cons_of_mem c hm))]
        simp
  induction lines with
  | nil => simp [splitLines, splitLinesAux]
  | cons l lines ih =>
      simp only [List.map_cons, List.flatten_cons]
      rw [List.append_assoc] at *
      show splitLinesAux (l ++ ('\r' :: '\n' :: (lines.map (· ++ ['\r', '\n'])).flatten)) [] = _
      rw [step l _ [] (h l (List.mem_cons_self l lines)).1 (h l (List.mem_cons_self l lines)).2]
      simp only [List.reverse_nil, List.nil_append, List.cons.injEq, true_and]
      exact ih (fun l' hl' => h l' (List.mem_cons_of_mem l hl'))

/-- Parsing in unquoted mode pushes every plain (non-delimiter, non-quote)
character onto the current field. -/
theorem parseLineAux_plain (delim : Char) (f : List Char) :
    ∀ (rest cur : List Char) (acc : List String),
      (∀ c ∈ f, c ≠ delim ∧ c ≠ '"') →
      parseLineAux delim (f ++ rest) false cur acc =
        parseLineAux delim rest false (f.reverse ++ cur) acc := by
  induction f with
  | nil => intro rest cur acc _; simp
  | cons c f ih =>
      intro rest cur acc h
      have hc := h c (List.mem_cons_self c f)
      rw [List.cons_append, parseLineAux, if_neg hc.1, if_neg hc.2]
      rw [ih rest (c :: cur) acc (fun x hx => h x (List.mem_cons_of_mem c hx))]
      simp

/-- In quoted mode, a doubled quote contributes one literal quote. -/
theorem parseLineAux_quote_quote (delim : Char) (cs2 cur : List Char) (acc : List String) :
    parseLineAux delim ('"' :: '"' :: cs2) true cur acc =
      parseLineAux delim cs2 true ('"' :: cur) acc := by
  simp [parseLineAux]

/-- In quoted mode, a quote followed by a non-quote closes the field's
quoting. -/
theorem parseLineAux_quote_close (delim c2 : Char) (cs2 cur : List Char)
    (acc : List String) (h : c2 ≠ '"') :
    parseLineAux delim ('"' :: c2 :: cs2) true cur acc =
      parseLineAux delim (c2 :: cs2) false cur acc := by
  simp [parseLineAux, h]

/-- In quoted mode, any non-quote character is literal. -/
theorem parseLineAux_inquote_plain (delim c : Char) (cs cur : List Char)
    (acc : List String) (h : c ≠ '"') :
    parseLineAux delim (c :: cs) true cur acc =
      parseLineAux delim cs true (c :: cur) acc := by
  cases cs with
  | nil => simp [parseLineAux, h]
  | cons c2 cs2 => simp [parseLineAux, h]

/-- Parsing in quoted mode undoes the quote doubling of `escQ` and leaves
quoted mode at the closing quote. -/
theorem parseLineAux_quoted (delim : Char) (f : List Char) :
    ∀ (rest cur : List Char) (acc : List String),
      (∀ cs2, rest ≠ '"' :: cs2) →
      parseLineAux delim (escQ f ++ '"' :: rest) true cur acc =
        parseLineAux delim rest false (f.reverse ++ cur) acc := by
  induction f with
  | nil =>
      intro rest cur acc hrest
      simp only [escQ, List.nil_append, List.reverse_nil]
      cases rest with
      | nil => simp [parseLineAux]
      | cons c2 cs2 =>
          have hc2 : c2 ≠ '"' := by
            intro hc
            exact hrest cs2 (by rw [hc])
          exact parseLineAux_quote_close delim c2 cs2 cur acc hc2
  | cons c f ih =>
      intro rest cur acc hrest
      by_cases hc : c = '"'
      · subst hc
        rw [show escQ ('"' :: f) = '"' :: '"' :: escQ f by simp [escQ]]
        rw [List.cons_append, List.cons_append]
        rw [parseLineAux_quote_quote delim _ cur acc]
        rw [ih rest ('"' :: cur) acc hrest]
        simp
      · rw [show escQ (c :: f) = c :: escQ f by simp [escQ, hc]]
        rw [List.cons_append, parseLineAux_inquote_plain delim c _ cur acc hc]
        rw [ih rest (c :: cur) acc hrest]
        simp

/-- In unquoted mode, the delimiter finishes the current field. -/
theorem parseLineAux_false_delim (delim : Char) (cs cur : List Char)
    (acc : List String) :
    parseLineAux delim (delim :: cs) false cur acc =
      parseLineAux delim cs false [] (acc ++ [String.mk cur.reverse]) := by
  simp [parseLineAux]

/-- In unquoted mode, a quote (distinct from the delimiter) opens quoted
mode. -/
theorem parseLineAux_false_quote (delim : Char) (cs cur : List Char)
    (acc : List String) (h : delim ≠ '"') :
    parseLineAux delim ('"' :: cs) false cur acc =
      parseLineAux delim cs true cur acc := by
  have h' : ¬(('"' : Char) = delim) := fun hh => h hh.symm
  simp [parseLineAux, h']

/-- `String.mk` and `String.data` are mutually inverse. -/
theorem String_mk_data (s : String) : String.mk s.data = s := rfl

/-- Parsing one rendered field consumes it into the current field and
stops at the following delimiter or line end. -/
theorem parseLineAux_field (delim : Char) (hq : delim ≠ '"') (f : String)
    (rest : List Char) (acc : List String)
    (hrest : rest = [] ∨ ∃ t, rest = delim :: t) :
    parseLineAux delim (renderField delim f ++ rest) false [] acc =
      parseLineAux delim rest false f.data.reverse acc := by
  by_cases hnq : needsQuote delim f.data
  · rw [renderField, if_pos hnq]
    rw [show ('"' :: (escQ f.data ++ ['"'])) ++ rest = '"' :: (escQ f.data ++ '"' :: rest) by simp]
    rw [parseLineAux_false_quote delim _ [] acc hq]
    rw [parseLineAux_quoted delim f.data rest [] acc ?_]
    · simp
    · intro cs2 hc
      rcases hrest with rfl | ⟨t, rfl⟩
      · cases hc
      · injection hc with h1 _
        exact hq h1
  · rw [renderField, if_neg hnq]
    have hchars : ∀ c ∈ f.data, c ≠ delim ∧ c ≠ '"' := by
      intro c hc
      have := List.any_eq_false.mp (Bool.not_eq_true _ ▸ hnq) c hc
      constructor
      · intro he; exact this (by simp [he])
      · intro he; exact this (by simp [he])
    rw [parseLineAux_plain delim f.data rest [] acc hchars]
    simp

/-- Parsing a whole rendered line appends exactly the original fields. -/
theorem parseLineAux_fields (delim : Char) (hq : delim ≠ '"') :
    ∀ (fs : List String) (acc : List String), fs ≠ [] →
      parseLineAux delim (joinSep [delim] (fs.map (renderField delim))) false [] acc =
        acc ++ fs := by
  intro fs
  induction fs with
  | nil => intro acc h; cases h rfl
  | cons f fs ih =>
      intro acc _
      cases fs with
      | nil =>
          show parseLineAux delim (renderField delim f) false [] acc = acc ++ [f]
          have hfld := parseLineAux_field delim hq f [] acc (Or.inl rfl)
          rw [List.append_nil] at hfld
          rw [hfld, parseLineAux]
          simp [String_mk_data]
      | cons f2 fs2 =>
          show parseLineAux delim
              ((renderField delim f ++ [delim]) ++ joinSep [delim] ((f2 :: fs2).map (renderField delim)))
              false [] acc = _
          rw [List.append_assoc]
          rw [show ([delim] ++ joinSep [delim] ((f2 :: fs2).map (renderField delim))) =
                delim :: joinSep [delim] ((f2 :: fs2).map (renderField delim)) by simp]
          rw [parseLineAux_field delim hq f _ acc (Or.inr ⟨_, rfl⟩)]
          rw [parseLineAux_false_delim]
          rw [ih (acc ++ [String.mk f.data.reverse.reverse]) (by simp)]
          simp [String_mk_data]

/-- Parsing inverts rendering for every non-empty field list, for every
delimiter other than the quote character. -/
theorem parseLine_renderLine (delim : Char) (hq : delim ≠ '"')
    (fs : List String) (h : fs ≠ []) :
    parseLine delim (renderLine delim fs) = fs := by
  have := parseLineAux_fields delim hq fs [] h
  simpa [parseLine, renderLine] using this

/-- `escQ` introduces no character other than quotes. -/
theorem not_mem_escQ (c : Char) (hc : c ≠ '"') :
    ∀ l : List Char, c ∉ l → c ∉ escQ l := by
  intro l
  induction l with
  | nil => intro _; simp [escQ]
  | cons a l ih =>
      intro h
      have hca : c ≠ a := fun hh => h (hh ▸ List.mem_cons_self a l)
      have hl := ih (fun hm => h (List.mem_cons_of_mem a hm))
      by_cases ha : a = '"' <;> simp [escQ, ha, hc, hca, hl]

/-- A rendered field contains no character absent from the field other
than quotes. -/
theorem not_mem_renderField (c delim : Char) (s : String)
    (hc : c ≠ '"') (h : c ∉ s.data) : c ∉ renderField delim s := by
  rw [renderField]
  split
  · simp [hc, not_mem_escQ c hc s.data h]
  · exact h

/-- Joining parts that avoid a character with a separator avoiding it
yields a list avoiding it. -/
theorem not_mem_joinSep (c : Char) (sep : List Char) (hsep : c ∉ sep) :
    ∀ parts : List (List Char), (∀ p ∈ parts, c ∉ p) → c ∉ joinSep sep parts := by
  intro parts
  induction parts with
  | nil => intro _; simp [joinSep]
  | cons p parts ih =>
      intro h
      cases parts with
      | nil => simpa [joinSep] using h p (List.mem_cons_self p [])
      | cons q qs =>
          show c ∉ p ++ sep ++ joinSep sep (q :: qs)
          simp only [List.mem_append, not_or]
          exact ⟨⟨h p (List.mem_cons_self p _), hsep⟩,
                 ih (fun p' hp' => h p' (List.mem_cons_of_mem p hp'))⟩

/-- A rendered line avoids any character distinct from the quote and the
delimiter that every field avoids. -/
theorem not_mem_renderLine (c delim : Char) (hc : c ≠ '"') (hcd : c ≠ delim)
    (fs : List String) (h : ∀ f ∈ fs, c ∉ f.data) : c ∉ renderLine delim fs := by
  rw [renderLine]
  apply not_mem_joinSep c [delim] (by simp [hcd])
  intro p hp
  obtain ⟨f, hf, rfl⟩ := List.mem_map.mp hp
  exact not_mem_renderField c delim f hc (h f hf)

/-- A successful association-list lookup returns one of the stored
values. -/
theorem lookup_val_mem {α β : Type} [BEq α] :
    ∀ (l : List (α × β)) (k : α) (v : β),
      l.lookup k = some v → ∃ a, (a, v) ∈ l := by
  intro l
  induction l with
  | nil => intro k v h; simp [List.lookup] at h
  | cons ab l ih =>
      intro k v h
      rw [List.lookup] at h
      split at h
      · exact ⟨ab.1, by simp [← Option.some.inj h]⟩
      · obtain ⟨a, ha⟩ := ih k v h
        exact ⟨a, List.mem_cons_of_mem _ ha⟩

/-- Every cell the writer produces for a row either is one of the row's
values or the empty default, so it avoids any character all values
avoid. -/
theorem rowCells_avoid (c : Char) (r : List (String × String)) (fns : List String)
    (hvals : ∀ kv ∈ r, c ∉ (kv.2 : String).data) :
    ∀ cell ∈ rowCells r fns, c ∉ cell.data := by
  intro cell hcell
  obtain ⟨f, _, rfl⟩ := List.mem_map.mp hcell
  cases hl : r.lookup f with
  | none => simp [hl]
  | some v =>
      obtain ⟨a, ham⟩ := lookup_val_mem r f v hl
      simpa [hl] using hvals (a, v) ham

/-- Projecting a row along its own (duplicate-free) key list returns its
values in order. -/
theorem rowCells_self (r : List (String × String))
    (hnd : (r.map Prod.fst).Nodup) :
    rowCells r (r.map Prod.fst) = r.map Prod.snd := by
  induction r with
  | nil => rfl
  | cons kv r ih =>
      obtain ⟨k, v⟩ := kv
      simp only [List.map_cons, List.nodup_cons] at hnd ⊢
      rw [rowCells, List.map_cons]
      refine List.cons_eq_cons.mpr ⟨?_, ?_⟩
      · simp [List.lookup]
      · rw [List.map_congr_left (g := fun f => ((r.lookup f).getD ""))]
        · exact ih hnd.2
        · intro f hf
          have hfk : ¬(f == k) = true := by
            simp only [beq_iff_eq]
            intro hh
            exact hnd.1 (hh ▸ hf)
          simp [List.lookup, hfk]

/-- Splitting the writer's output into physical lines recovers exactly the
rendered lines, provided every rendered line avoids CR and LF. -/
theorem splitLines_csvContent (delim : Char) (rs : List (List String))
    (h : ∀ r ∈ rs, '\r' ∉ renderLine delim r ∧ '\n' ∉ renderLine delim r) :
    splitLines (csvContent delim rs) = rs.map (renderLine delim) := by
  have := splitLines_flatten (rs.map (renderLine delim)) ?_
  · rw [← this, csvContent, List.map_map]
    rfl
  · intro l hl
    obtain ⟨r, hr, rfl⟩ := List.mem_map.mp hl
    exact h r hr

/-- Claim C9 (amended with the newline restriction the counterexample
forces): writing `N` complete rows whose values contain no CR/LF and
re-reading the destination with the same delimiter yields `N + 1` lines —
the header first — and parsing data line `i` recovers exactly the row
passed for record `i`, its values in the fixed column order; rows are
never reordered, sorted or deduplicated (line `i` corresponds to input row
`i`). -/
theorem csv_roundtrip (delim : Char) (rows : List (List (String × String)))
    (hq : delim ≠ '"') (hr : delim ≠ '\r') (hn : delim ≠ '\n')
    (hkeys : ∀ r ∈ rows, r.map Prod.fst = fieldnames)
    (hvals : ∀ r ∈ rows, ∀ kv ∈ r,
        '\r' ∉ (kv.2 : String).data ∧ '\n' ∉ (kv.2 : String).data) :
    ∃ content, csv_export delim fieldnames rows = some content ∧
      (splitLines content).length = rows.length + 1 ∧
      (splitLines content).get? 0 = some (renderLine delim fieldnames) ∧
      parseLine delim (renderLine delim fieldnames) = fieldnames ∧
      (∀ (i : Nat) (r : List (String × String)), rows.get? i = some r →
          ((splitLines content).get? (i + 1)).map (parseLine delim) =
            some (r.map Prod.snd)) := by
  have hfnchars : ∀ f ∈ fieldnames, '\r' ∉ f.data ∧ '\n' ∉ f.data := by decide
  have hnoextra : rows.any (hasExtraKey fieldnames) = false := by
    rw [List.any_eq_false]
    intro r hrr
    simp only [Bool.not_eq_true, hasExtraKey, List.any_eq_false]
    intro kv hkv
    have hmem : kv.1 ∈ fieldnames := by
      rw [← hkeys r hrr]
      exact List.mem_map_of_mem Prod.fst hkv
    simp [hmem]
  have hsplit : splitLines (csvContent delim (fieldnames :: rows.map (rowCells · fieldnames))) =
      (fieldnames :: rows.map (rowCells · fieldnames)).map (renderLine delim) := by
    apply splitLines_csvContent
    intro cells hc
    rcases List.mem_cons.mp hc with rfl | hc
    · exact ⟨not_mem_renderLine _ delim (by decide) (Ne.symm hr) _ (fun f hf => (hfnchars f hf).1),
             not_mem_renderLine _ delim (by decide) (Ne.symm hn) _ (fun f hf => (hfnchars f hf).2)⟩
    · obtain ⟨r, hrr, rfl⟩ := List.mem_map.mp hc
      refine ⟨not_mem_renderLine _ delim (by decide) (Ne.symm hr) _ ?_,
              not_mem_renderLine _ delim (by decide) (Ne.symm hn) _ ?_⟩
      · exact rowCells_avoid _ r fieldnames (fun kv hkv => (hvals r hrr kv hkv).1)
      · exact rowCells_avoid _ r fieldnames (fun kv hkv => (hvals r hrr kv hkv).2)
  refine ⟨csvContent delim (fieldnames :: rows.map (rowCells · fieldnames)), ?_, ?_, ?_, ?_, ?_⟩
  · rw [csv_export, if_neg (by simp [hnoextra])]
  · rw [hsplit]; simp
  · rw [hsplit]; simp
  · exact parseLine_renderLine delim hq fieldnames (by simp [fieldnames])
  · intro i r hir
    have hrr : r ∈ rows := List.get?_mem hir
    rw [hsplit]
    rw [List.map_cons]
    rw [show ((renderLine delim fieldnames :: (rows.map (rowCells · fieldnames)).map (renderLine delim)).get? (i + 1)) =
          ((rows.map (rowCells · fieldnames)).map (renderLine delim)).get? i from rfl]
    rw [List.get?_map, List.get?_map, hir]
    simp only [Option.map_map, Option.map_some, Option.map_some', Function.comp]
    have hne : rowCells r fieldnames ≠ [] := by simp [rowCells, fieldnames]
    rw [parseLine_renderLine delim hq _ hne]
    rw [show rowCells r fieldnames = rowCells r (r.map Prod.fst) by rw [hkeys r hrr]]
    rw [rowCells_self r (by rw [hkeys r hrr]; decide)]

/-- A complete FlatRow whose `key` value contains a bare LF. -/
def c9Row : List (String × String) :=
  fieldnames.map fun f => (f, if f = "key" then "a\nb" else "")

set_option maxRecDepth 16384 in
/-- Counterexample to claim C9 as stated: one written row whose `key`
value contains a newline yields 3 physical lines on re-reading, not
`N + 1 = 2` — the quoted value spans two physical lines. -/
theorem csv_roundtrip_counterexample :
    ((csv_export ';' fieldnames [c9Row]).map fun c => (splitLines c).length) = some 3 ∧
    (3 : Nat) ≠ [c9Row].length + 1 := by
  constructor
  · decide
  · simp

/-- A complete FlatRow with plain values for the C9 witness. -/
def c9WitnessRow : List (String × String) :=
  fieldnames.map fun f => (f, "x")

/-- Witness for the amended C9: one newline-free row writes to 2 lines and
data line 1 parses back to the row's values. -/
theorem csv_roundtrip_witness :
    ((csv_export ';' fieldnames [c9WitnessRow]).map fun c => (splitLines c).length) =
      some 2 ∧
    ((csv_export ';' fieldnames [c9WitnessRow]).map fun c =>
        ((splitLines c).get? 1).map (parseLine ';')) =
      some (some (c9WitnessRow.map Prod.snd)) := by
  obtain ⟨content, hc, hlen, hhd, hparse, hdata⟩ :=
    csv_roundtrip ';' [c9WitnessRow] (by decide) (by decide) (by decide)
      (by intro r hr
          simp only [List.mem_singleton] at hr
          subst hr
          decide)
      (by intro r hr
          simp only [List.mem_singleton] at hr
          subst hr
          decide)
  rw [hc]
  constructor
  · simp [hlen]
  · simp only [Option.map_some']
    exact congrArg some (hdata 0 c9WitnessRow rfl)
